import Mathlib

/-!
Verification development for the integrity314 context-capture pipeline.

The definitions below are a shallow embedding of the Python sources:
  - `src/modules/keystroke_logger.py` (class KeystrokeLogger),
  - `src/main.py` (class IntegrityAssistant: the two rolling buffers,
    the capture loop body, the keystroke callback and submit_query),
  - `src/modules/screen_capture.py` (ScreenCapture.extract_text).

Modelling conventions:
  - wall-clock instants (Python time.time values, in seconds) are modelled
    as integers; the code only ever compares an elapsed difference of
    instants against the one-second flush threshold, so whole-second
    instants exercise both sides of every timing branch;
  - the key-event source delivers a key identity plus, on release, whether
    Shift is physically held (the pynput listener world state);
  - the logger callback is the one installed by IntegrityAssistant.start,
    namely on_keystroke, and is always set while events are processed;
  - strings are Lean strings, with whitespace handling for OCR text done
    on the underlying character lists.
-/

namespace Integrity

/-- A key delivered by the key-event source: a printable character key
(pynput KeyCode with a char), or a named special key (pynput Key). -/
inductive Key where
  | char (c : Char)
  | enter
  | tab
  | shift
  | named (n : String)
deriving DecidableEq, Repr

/-- Display token for a key, from keystroke_logger.py lines 50-55: a
character key contributes its character, a special key contributes the
bracketed name obtained from str(key) with the prefix Key. stripped. -/
def keyStr : Key → String
  | Key.char c => String.singleton c
  | Key.enter => "[enter]"
  | Key.tab => "[tab]"
  | Key.shift => "[shift]"
  | Key.named n => "[" ++ n ++ "]"

/-- A key is special (non-printable) when it has no char attribute. -/
def Key.isSpecial : Key → Bool
  | Key.char _ => false
  | _ => true

/-- The sensitive field markers, keystroke_logger.py lines 21-22. -/
def sensitive_prefixes : List String :=
  ["password", "passwd", "pwd", "pin", "credit", "card",
   "cvv", "ssn", "social", "secret"]

/-- Lowercased character data of a string (Python str.lower). -/
def lowerData (s : String) : List Char := s.data.map Char.toLower

/-- Whether any sensitive marker occurs as a substring of the lowercased
buffer: the loop of _check_sensitive_context, lines 92-96. -/
def markerPresent (buf : String) : Bool :=
  sensitive_prefixes.any (fun p => decide (p.data <:+: lowerData buf))

/-- The mutable state of KeystrokeLogger relevant to key events:
running, buffer, last_timestamp and sensitive_mode (lines 14-23). -/
structure LoggerState where
  running : Bool
  buffer : String
  last_timestamp : ℤ
  sensitive_mode : Bool
deriving DecidableEq, Repr

/-- Logger state right after start(): running, empty buffer, sensitive
mode off; we take the construction instant as time 0. -/
def initLogger : LoggerState := ⟨true, "", 0, false⟩

/-- _check_sensitive_context (lines 89-96): sets sensitive_mode to true
when a marker occurs in the lowercased buffer, otherwise leaves the
state unchanged.  It never sets sensitive_mode back to false. -/
def check_sensitive_context (s : LoggerState) : LoggerState :=
  if markerPresent s.buffer then { s with sensitive_mode := true } else s

/-- _flush_buffer (lines 98-105): if the buffer is non-empty the callback
receives it (returned here as the optional emitted segment); then the
buffer is cleared and last_timestamp set to the current time.  Note that
sensitive_mode is not touched. -/
def flush_buffer (now : ℤ) (s : LoggerState) : LoggerState × Option String :=
  ({ s with buffer := "", last_timestamp := now },
   if s.buffer = "" then none else some s.buffer)

/-- The token appended for a pressed key: lines 49-59.  The sensitive
check has already run when the token is chosen, so the decision uses the
post-check sensitive_mode; in sensitive mode the token is the mask
character, otherwise the display token of the key. -/
def pressedToken (s : LoggerState) (key : Key) : String :=
  if (check_sensitive_context s).sensitive_mode then "*" else keyStr key

/-- Whether a string starts with the bracket character, the test
key_str.startswith of line 67. -/
def startsWithBracket (s : String) : Bool :=
  match s.data with
  | [] => false
  | c :: _ => c = '['

/-- _on_key_press (lines 40-72).  Ignored when not running.  Otherwise:
run the sensitive check, compute the (possibly masked) token, append it
to the buffer, then flush when more than one second has elapsed since
the last flush, or the token is bracketed, or the buffer length now
exceeds 20. -/
def on_key_press (now : ℤ) (key : Key) (s : LoggerState) :
    LoggerState × Option String :=
  if s.running = false then (s, none) else
  let s1 := check_sensitive_context s
  let key_str := pressedToken s key
  let s2 := { s1 with buffer := s1.buffer ++ key_str }
  if 1 < now - s2.last_timestamp ∨ startsWithBracket key_str = true ∨
      20 < s2.buffer.length then
    flush_buffer now s2
  else (s2, none)

/-- _active_keys (lines 84-87): the implementation placeholder that
always returns the empty list, regardless of which keys are physically
held. -/
def active_keys : List Key := []

/-- _on_key_release (lines 74-82).  Enter or Tab releases flush
immediately.  The sensitive-mode exit branch tests membership of Shift
in _active_keys(), not the physically held modifiers, so the
shift_held input of the event is never consulted.  There is no running
guard on this handler in the source. -/
def on_key_release (now : ℤ) (key : Key) (shift_held : Bool)
    (s : LoggerState) : LoggerState × Option String :=
  let r := if key = Key.enter ∨ key = Key.tab then flush_buffer now s
           else (s, none)
  let s2 := if key = Key.tab ∧ Key.shift ∈ active_keys then
              { r.1 with sensitive_mode := false }
            else r.1
  (s2, r.2)

/-- stop (lines 107-115): clear running, then flush any remaining
buffer contents. -/
def stop (now : ℤ) (s : LoggerState) : LoggerState × Option String :=
  let s1 := { s with running := false }
  if s1.buffer = "" then (s1, none) else flush_buffer now s1

/-- An event delivered to the KeystrokeLogger, tagged with the clock
instant at which the handler runs. -/
inductive LogEvent where
  | press (now : ℤ) (key : Key)
  | release (now : ℤ) (key : Key) (shift_held : Bool)
  | stop (now : ℤ)
deriving DecidableEq, Repr

/-- The instant at which an event is handled. -/
def LogEvent.time : LogEvent → ℤ
  | LogEvent.press now _ => now
  | LogEvent.release now _ _ => now
  | LogEvent.stop now => now

/-- One logger event handled: the new state and the optionally emitted
segment handed to the callback. -/
def logStep (s : LoggerState) : LogEvent → LoggerState × Option String
  | LogEvent.press now key => on_key_press now key s
  | LogEvent.release now key sh => on_key_release now key sh s
  | LogEvent.stop now => stop now s

/-- Run the logger over a list of events, keeping only the final state. -/
def runLogger (s : LoggerState) : List LogEvent → LoggerState
  | [] => s
  | e :: evs => runLogger (logStep s e).1 evs

/-- Run the logger over a list of events, collecting the emitted
segments in order. -/
def runLoggerOut (s : LoggerState) : List LogEvent → LoggerState × List String
  | [] => (s, [])
  | e :: evs =>
      let r := logStep s e
      let rest := runLoggerOut r.1 evs
      (rest.1, r.2.toList ++ rest.2)

/-- An entry of the screen text buffer, main.py lines 91-95: capture
timestamp and extracted text. -/
structure ScreenTextEntry where
  timestamp : ℤ
  text : String
deriving DecidableEq, Repr

/-- An entry of the keystroke buffer, main.py lines 109-113: callback
timestamp and flushed content. -/
structure KeystrokeEntry where
  timestamp : ℤ
  content : String
deriving DecidableEq, Repr

/-- The append-then-evict idiom used for both buffers, main.py lines
92-99 and 110-117: list.append(x) followed by popping the head when the
length exceeds the capacity. -/
def pushEvict {α : Type} (cap : ℕ) (xs : List α) (x : α) : List α :=
  let ys := xs ++ [x]
  if cap < ys.length then ys.tail else ys

/-- The mutable state of IntegrityAssistant relevant to the claims: the
logger state together with the two rolling buffers (main.py lines
37-39). -/
structure SysState where
  logger : LoggerState
  screen_texts : List ScreenTextEntry
  keystrokes : List KeystrokeEntry
deriving DecidableEq, Repr

/-- Application state right after start(): fresh logger and empty
buffers. -/
def initSys : SysState := ⟨initLogger, [], []⟩

/-- on_keystroke (main.py lines 107-117): append the flushed content
with the current timestamp, then keep only the last 100 entries. -/
def on_keystroke (now : ℤ) (content : String)
    (ks : List KeystrokeEntry) : List KeystrokeEntry :=
  pushEvict 100 ks ⟨now, content⟩

/-- One body iteration of run_screen_capture (main.py lines 84-99),
abstracted over the text the extractor returned for this cycle: store a
new entry only when the text is non-empty, then keep only the last 30
entries. -/
def capture_cycle (now : ℤ) (text : String)
    (scr : List ScreenTextEntry) : List ScreenTextEntry :=
  if text = "" then scr else pushEvict 30 scr ⟨now, text⟩

/-- An event of the running system: a key event handled by the logger
(whose emitted segment, if any, reaches on_keystroke), or one capture
cycle that extracted the given text. -/
inductive SysEvent where
  | key (e : LogEvent)
  | capture (now : ℤ) (text : String)
deriving DecidableEq, Repr

/-- One system step. -/
def sysStep (s : SysState) : SysEvent → SysState
  | SysEvent.key e =>
      let r := logStep s.logger e
      { s with
        logger := r.1,
        keystrokes :=
          match r.2 with
          | some c => on_keystroke (LogEvent.time e) c s.keystrokes
          | none => s.keystrokes }
  | SysEvent.capture now text =>
      { s with screen_texts := capture_cycle now text s.screen_texts }

/-- Run the system over a list of events. -/
def runSys (s : SysState) : List SysEvent → SysState
  | [] => s
  | e :: evs => runSys (sysStep s e) evs

/-- The screen text entries an event appends to its buffer (empty or a
single entry). -/
def screenAppends (s : SysState) : SysEvent → List ScreenTextEntry
  | SysEvent.key _ => []
  | SysEvent.capture now text => if text = "" then [] else [⟨now, text⟩]

/-- The keystroke entries an event appends to its buffer (empty or a
single entry). -/
def keyAppends (s : SysState) : SysEvent → List KeystrokeEntry
  | SysEvent.key e =>
      (match (logStep s.logger e).2 with
       | some c => [⟨LogEvent.time e, c⟩]
       | none => [])
  | SysEvent.capture _ _ => []

/-- All screen text entries appended along a run, in order. -/
def screenHist (s : SysState) : List SysEvent → List ScreenTextEntry
  | [] => []
  | e :: evs => screenAppends s e ++ screenHist (sysStep s e) evs

/-- All keystroke entries appended along a run, in order. -/
def keyHist (s : SysState) : List SysEvent → List KeystrokeEntry
  | [] => []
  | e :: evs => keyAppends s e ++ keyHist (sysStep s e) evs

/-- The suffix of the last n elements of a list. -/
def lastN {α : Type} (n : ℕ) (xs : List α) : List α :=
  xs.drop (xs.length - n)

/-- A reference to the live screen text buffer object
(IntegrityAssistant.screen_texts): the single list object allocated in
__init__, main.py line 38. -/
inductive ScreenBufRef where
  | live
deriving DecidableEq, Repr

/-- A reference to the live keystroke buffer object
(IntegrityAssistant.keystrokes), main.py line 39. -/
inductive KeyBufRef where
  | live
deriving DecidableEq, Repr

/-- Dereference a screen buffer reference in a given application state. -/
def ScreenBufRef.read : ScreenBufRef → SysState → List ScreenTextEntry
  | ScreenBufRef.live, s => s.screen_texts

/-- Dereference a keystroke buffer reference in a given application
state. -/
def KeyBufRef.read : KeyBufRef → SysState → List KeystrokeEntry
  | KeyBufRef.live, s => s.keystrokes

/-- The context document built by submit_query (main.py lines 122-133).
The dict literal stores self.screen_texts and self.keystrokes
themselves, i.e. references to the two live list objects, not copies of
their elements; so the document fields are buffer references whose
observable contents at any instant are read through the application
state current at that instant. -/
structure DataBlock where
  user_query : String
  screen_texts : ScreenBufRef
  recent_keystrokes : KeyBufRef
deriving DecidableEq, Repr

/-- submit_query assembling the data block for a query (main.py lines
122-133): the query text plus references to the two live buffers. -/
def submit_query_block (query_text : String) : DataBlock :=
  ⟨query_text, ScreenBufRef.live, KeyBufRef.live⟩

/-- Python str.split with no separator (screen_capture.py line 42):
split on runs of whitespace, discarding empty pieces.  The accumulator
holds the characters of the word currently being read, in reverse. -/
def splitWordsAux : List Char → List Char → List (List Char)
  | [], acc => if acc = [] then [] else [acc.reverse]
  | c :: cs, acc =>
      if c.isWhitespace then
        if acc = [] then splitWordsAux cs []
        else acc.reverse :: splitWordsAux cs []
      else splitWordsAux cs (c :: acc)

/-- The whitespace-separated words of a character list. -/
def splitWords (cs : List Char) : List (List Char) :=
  splitWordsAux cs []

/-- Python single-space str.join (screen_capture.py line 42): the words
joined by one space character. -/
def joinWords : List (List Char) → List Char
  | [] => []
  | [w] => w
  | w :: v :: ws => w ++ ' ' :: joinWords (v :: ws)

/-- ScreenCapture.extract_text (screen_capture.py lines 32-50),
abstracted over the opaque image type and the OCR collaborator: empty
result for an absent image (OCR not consulted), empty result when OCR
fails, otherwise the OCR text with whitespace runs collapsed to single
spaces and ends trimmed. -/
def extract_text {α : Type} (image : Option α)
    (ocr : α → Except Unit (List Char)) : List Char :=
  match image with
  | none => []
  | some img =>
      match ocr img with
      | Except.error _ => []
      | Except.ok t => joinWords (splitWords t)

/-- No two adjacent characters are both whitespace. -/
def noAdjWhitespace : List Char → Bool
  | c :: d :: rest => (!(c.isWhitespace && d.isWhitespace)) &&
      noAdjWhitespace (d :: rest)
  | _ => true

/-- A character list is in normalized form: it neither starts nor ends
with whitespace, contains no two adjacent whitespace characters, and
its only whitespace character is the single space. -/
def isNormalized (l : List Char) : Bool :=
  l.head?.all (fun c => !c.isWhitespace) &&
  l.getLast?.all (fun c => !c.isWhitespace) &&
  noAdjWhitespace l &&
  l.all (fun c => !c.isWhitespace || c = ' ')

/-- The press sequence of the password scenario: the eleven character
keys p,a,s,s,w,o,r,d,1,2,3, each pressed within one second of the last
flush (all at instant 1, with the last flush at instant 0). -/
def c6Events : List LogEvent :=
  (['p', 'a', 's', 's', 'w', 'o', 'r', 'd', '1', '2', '3'].map
    (fun c => LogEvent.press 1 (Key.char c)))

theorem check_sensitive_mono (s : LoggerState) (h : s.sensitive_mode = true) :
    (check_sensitive_context s).sensitive_mode = true := by
  unfold check_sensitive_context
  split <;> simp [h]

theorem check_sensitive_of_marker (s : LoggerState)
    (h : markerPresent s.buffer = true) :
    (check_sensitive_context s).sensitive_mode = true := by
  unfold check_sensitive_context
  simp [h]

theorem flush_sensitive (now : ℤ) (s : LoggerState) :
    ((flush_buffer now s).1).sensitive_mode = s.sensitive_mode := rfl

theorem on_key_press_sensitive_mono (now : ℤ) (key : Key) (s : LoggerState)
    (h : s.sensitive_mode = true) :
    ((on_key_press now key s).1).sensitive_mode = true := by
  unfold on_key_press
  dsimp only
  split
  · exact h
  · split
    · simpa [flush_buffer] using check_sensitive_mono s h
    · simpa using check_sensitive_mono s h

theorem on_key_release_sensitive_mono (now : ℤ) (key : Key) (sh : Bool)
    (s : LoggerState) (h : s.sensitive_mode = true) :
    ((on_key_release now key sh s).1).sensitive_mode = true := by
  unfold on_key_release
  dsimp only
  split
  · simp [active_keys] at *
  · split <;> simp [flush_buffer, h]

theorem stop_sensitive_mono (now : ℤ) (s : LoggerState)
    (h : s.sensitive_mode = true) :
    ((stop now s).1).sensitive_mode = true := by
  unfold stop
  dsimp only
  split <;> simp [flush_buffer, h]

theorem logStep_sensitive_mono (s : LoggerState) (e : LogEvent)
    (h : s.sensitive_mode = true) :
    ((logStep s e).1).sensitive_mode = true := by
  cases e with
  | press now key => exact on_key_press_sensitive_mono now key s h
  | release now key sh => exact on_key_release_sensitive_mono now key sh s h
  | stop now => exact stop_sensitive_mono now s h

theorem runLogger_sensitive_mono (evs : List LogEvent) (s : LoggerState)
    (h : s.sensitive_mode = true) :
    (runLogger s evs).sensitive_mode = true := by
  induction evs generalizing s with
  | nil => exact h
  | cons e evs ih => exact ih _ (logStep_sensitive_mono s e h)

theorem flush_emit_nonempty (now : ℤ) (s : LoggerState) (c : String)
    (h : (flush_buffer now s).2 = some c) : c ≠ "" := by
  unfold flush_buffer at h
  dsimp only at h
  split at h
  · simp at h
  · rename_i hne
    simp at h
    exact h ▸ hne

theorem on_key_press_emit_nonempty (now : ℤ) (key : Key) (s : LoggerState)
    (c : String) (h : (on_key_press now key s).2 = some c) : c ≠ "" := by
  unfold on_key_press at h
  dsimp only at h
  split at h
  · simp at h
  · split at h
    · exact flush_emit_nonempty _ _ _ h
    · simp at h

theorem on_key_release_emit_nonempty (now : ℤ) (key : Key) (sh : Bool)
    (s : LoggerState) (c : String)
    (h : (on_key_release now key sh s).2 = some c) : c ≠ "" := by
  unfold on_key_release at h
  dsimp only at h
  split at h
  · exact flush_emit_nonempty _ _ _ h
  · simp at h

theorem stop_emit_nonempty (now : ℤ) (s : LoggerState) (c : String)
    (h : (stop now s).2 = some c) : c ≠ "" := by
  unfold stop at h
  dsimp only at h
  split at h
  · simp at h
  · exact flush_emit_nonempty _ _ _ h

theorem logStep_emit_nonempty (s : LoggerState) (e : LogEvent) (c : String)
    (h : (logStep s e).2 = some c) : c ≠ "" := by
  cases e with
  | press now key => exact on_key_press_emit_nonempty now key s c h
  | release now key sh => exact on_key_release_emit_nonempty now key sh s c h
  | stop now => exact stop_emit_nonempty now s c h

theorem pushEvict_lastN {α : Type} (cap : ℕ) (xs : List α) (x : α)
    (h : xs.length ≤ cap) : pushEvict cap xs x = lastN cap (xs ++ [x]) := by
  unfold pushEvict lastN
  dsimp only
  split
  · rename_i hlt
    simp only [List.length_append, List.length_singleton] at hlt
    have hx : (xs ++ [x]).length - cap = 1 := by
      simp only [List.length_append, List.length_singleton]
      omega
    rw [hx, List.drop_one]
  · rename_i hge
    simp only [List.length_append, List.length_singleton] at hge
    have hx : (xs ++ [x]).length - cap = 0 := by
      simp only [List.length_append, List.length_singleton]
      omega
    rw [hx, List.drop_zero]

theorem lastN_length_le {α : Type} (n : ℕ) (xs : List α) :
    (lastN n xs).length ≤ n := by
  unfold lastN
  simp only [List.length_drop]
  omega

theorem lastN_append_absorb {α : Type} (n : ℕ) (A B : List α) :
    lastN n (lastN n A ++ B) = lastN n (A ++ B) := by
  by_cases h : A.length ≤ n
  · have h0 : A.length - n = 0 := by omega
    simp [lastN, h0]
  · push_neg at h
    unfold lastN
    rw [List.drop_append_eq_append_drop, List.drop_append_eq_append_drop,
        List.drop_drop]
    congr 1
    · congr 1
      simp only [List.length_append, List.length_drop]
      omega
    · congr 1
      simp only [List.length_append, List.length_drop]
      omega

theorem mem_pushEvict {α : Type} {cap : ℕ} {xs : List α} {x y : α}
    (h : y ∈ pushEvict cap xs x) : y ∈ xs ∨ y = x := by
  unfold pushEvict at h
  dsimp only at h
  split at h
  · have := List.mem_of_mem_tail h
    simpa using this
  · simpa using h

theorem sysStep_screen (s : SysState) (e : SysEvent)
    (A : List ScreenTextEntry) (hs : s.screen_texts = lastN 30 A) :
    (sysStep s e).screen_texts = lastN 30 (A ++ screenAppends s e) := by
  cases e with
  | key e => simp [sysStep, screenAppends, hs]
  | capture now text =>
      by_cases ht : text = ""
      · simp [sysStep, capture_cycle, screenAppends, ht, hs]
      · simp only [sysStep, capture_cycle, screenAppends, ht, if_neg]
        rw [hs, pushEvict_lastN _ _ _ (lastN_length_le _ _), lastN_append_absorb]
        simp [ht]

theorem sysStep_keys (s : SysState) (e : SysEvent)
    (A : List KeystrokeEntry) (hs : s.keystrokes = lastN 100 A) :
    (sysStep s e).keystrokes = lastN 100 (A ++ keyAppends s e) := by
  cases e with
  | capture now text => simp [sysStep, keyAppends, hs]
  | key e =>
      cases hout : (logStep s.logger e).2 with
      | none => simp [sysStep, keyAppends, hout, hs]
      | some c =>
          simp only [sysStep, keyAppends, hout, on_keystroke]
          rw [hs, pushEvict_lastN _ _ _ (lastN_length_le _ _), lastN_append_absorb]

theorem runSys_screen (evs : List SysEvent) (s : SysState)
    (A : List ScreenTextEntry) (hs : s.screen_texts = lastN 30 A) :
    (runSys s evs).screen_texts = lastN 30 (A ++ screenHist s evs) := by
  induction evs generalizing s A with
  | nil => simpa [runSys, screenHist] using hs
  | cons e evs ih =>
      simp only [runSys, screenHist]
      rw [← List.append_assoc]
      exact ih (sysStep s e) (A ++ screenAppends s e) (sysStep_screen s e A hs)

theorem runSys_keys (evs : List SysEvent) (s : SysState)
    (A : List KeystrokeEntry) (hs : s.keystrokes = lastN 100 A) :
    (runSys s evs).keystrokes = lastN 100 (A ++ keyHist s evs) := by
  induction evs generalizing s A with
  | nil => simpa [runSys, keyHist] using hs
  | cons e evs ih =>
      simp only [runSys, keyHist]
      rw [← List.append_assoc]
      exact ih (sysStep s e) (A ++ keyAppends s e) (sysStep_keys s e A hs)

theorem sysStep_nonempty (s : SysState) (e : SysEvent)
    (h1 : ∀ x ∈ s.screen_texts, x.text ≠ "")
    (h2 : ∀ x ∈ s.keystrokes, x.content ≠ "") :
    (∀ x ∈ (sysStep s e).screen_texts, x.text ≠ "") ∧
    (∀ x ∈ (sysStep s e).keystrokes, x.content ≠ "") := by
  cases e with
  | capture now text =>
      refine ⟨?_, by simpa [sysStep] using h2⟩
      by_cases ht : text = ""
      · simpa [sysStep, capture_cycle, ht] using h1
      · intro x hx
        simp only [sysStep, capture_cycle, ht, if_neg] at hx
        rcases mem_pushEvict (by simpa [ht] using hx) with hmem | rfl
        · exact h1 x hmem
        · exact ht
  | key e =>
      refine ⟨by simpa [sysStep] using h1, ?_⟩
      cases hout : (logStep s.logger e).2 with
      | none => simpa [sysStep, hout] using h2
      | some c =>
          intro x hx
          simp only [sysStep, hout, on_keystroke] at hx
          rcases mem_pushEvict hx with hmem | rfl
          · exact h2 x hmem
          · exact logStep_emit_nonempty s.logger e c hout

theorem runSys_nonempty (evs : List SysEvent) (s : SysState)
    (h1 : ∀ x ∈ s.screen_texts, x.text ≠ "")
    (h2 : ∀ x ∈ s.keystrokes, x.content ≠ "") :
    (∀ x ∈ (runSys s evs).screen_texts, x.text ≠ "") ∧
    (∀ x ∈ (runSys s evs).keystrokes, x.content ≠ "") := by
  induction evs generalizing s with
  | nil => exact ⟨h1, h2⟩
  | cons e evs ih =>
      have hstep := sysStep_nonempty s e h1 h2
      exact ih (sysStep s e) hstep.1 hstep.2

theorem noAdj_cons (c : Char) (l : List Char) :
    noAdjWhitespace (c :: l) =
      (l.head?.all (fun d => !(c.isWhitespace && d.isWhitespace)) &&
       noAdjWhitespace l) := by
  cases l <;> simp [noAdjWhitespace]

theorem noAdj_of_all (l : List Char)
    (h : l.all (fun c => !c.isWhitespace) = true) :
    noAdjWhitespace l = true := by
  induction l with
  | nil => rfl
  | cons c l ih =>
      simp only [List.all_cons, Bool.and_eq_true] at h
      rw [noAdj_cons]
      simp only [Bool.and_eq_true]
      refine ⟨?_, ih h.2⟩
      have hc : c.isWhitespace = false := by
        simpa using h.1
      cases l.head? <;> simp [hc]

theorem noAdj_append (xs ys : List Char)
    (hxs : xs.all (fun c => !c.isWhitespace) = true)
    (hys : noAdjWhitespace ys = true) :
    noAdjWhitespace (xs ++ ys) = true := by
  induction xs with
  | nil => simpa using hys
  | cons x xs ih =>
      simp only [List.all_cons, Bool.and_eq_true] at hxs
      simp only [List.cons_append]
      rw [noAdj_cons]
      simp only [Bool.and_eq_true]
      refine ⟨?_, ih hxs.2⟩
      have hx : x.isWhitespace = false := by
        simpa using hxs.1
      cases (xs ++ ys).head? <;> simp [hx]

theorem all_getLast? (l : List Char) (p : Char → Bool)
    (h : l.all p = true) : l.getLast?.all p = true := by
  induction l with
  | nil => rfl
  | cons c l ih =>
      simp only [List.all_cons, Bool.and_eq_true] at h
      cases l with
      | nil => simpa using h.1
      | cons d l =>
          rw [List.getLast?_cons_cons]
          exact ih (by simpa using h.2)

theorem joinWords_ne_nil (w : List Char) (ws : List (List Char))
    (hw : w ≠ []) : joinWords (w :: ws) ≠ [] := by
  cases ws with
  | nil => simpa [joinWords] using hw
  | cons v ws => simp [joinWords]

theorem joinWords_normalized (ws : List (List Char))
    (h : ∀ w ∈ ws, w ≠ [] ∧ w.all (fun c => !c.isWhitespace) = true) :
    isNormalized (joinWords ws) = true := by
  induction ws with
  | nil => rfl
  | cons w tail ih =>
      obtain ⟨hw, hall⟩ := h w (by simp)
      cases tail with
      | nil =>
          simp only [joinWords, isNormalized, Bool.and_eq_true]
          refine ⟨⟨⟨?_, ?_⟩, noAdj_of_all w hall⟩, ?_⟩
          · cases w with
            | nil => exact absurd rfl hw
            | cons c w =>
                simp only [List.all_cons, Bool.and_eq_true] at hall
                simp only [List.head?_cons, Option.all_some]
                exact hall.1
          · exact all_getLast? w _ hall
          · simp only [List.all_eq_true] at hall ⊢
            intro c hc
            simp [hall c hc]
      | cons v ws2 =>
          have htail : ∀ u ∈ v :: ws2, u ≠ [] ∧
              u.all (fun c => !c.isWhitespace) = true := by
            intro u hu
            exact h u (by simp [hu])
          have hJ := ih htail
          obtain ⟨hv, _⟩ := htail v (by simp)
          have hJne : joinWords (v :: ws2) ≠ [] := joinWords_ne_nil v ws2 hv
          simp only [isNormalized, Bool.and_eq_true] at hJ
          obtain ⟨⟨⟨hJh, hJl⟩, hJadj⟩, hJall⟩ := hJ
          simp only [joinWords, isNormalized, Bool.and_eq_true]
          refine ⟨⟨⟨?_, ?_⟩, ?_⟩, ?_⟩
          · rw [List.head?_append_of_ne_nil w hw]
            cases w with
            | nil => exact absurd rfl hw
            | cons c w =>
                simp only [List.all_cons, Bool.and_eq_true] at hall
                simp only [List.head?_cons, Option.all_some]
                exact hall.1
          · rw [List.getLast?_append_cons]
            cases hJcase : joinWords (v :: ws2) with
            | nil => exact absurd hJcase hJne
            | cons a J2 =>
                rw [List.getLast?_cons_cons]
                rw [hJcase] at hJl
                exact hJl
          · refine noAdj_append w _ hall ?_
            rw [noAdj_cons]
            simp only [Bool.and_eq_true]
            refine ⟨?_, hJadj⟩
            cases hJcase : joinWords (v :: ws2) with
            | nil => simp
            | cons a J2 =>
                rw [hJcase] at hJh
                simp only [List.head?_cons, Option.all_some] at hJh ⊢
                have : a.isWhitespace = false := by
                  simpa using hJh
                simp [this]
          · rw [List.all_append]
            simp only [Bool.and_eq_true]
            constructor
            · simp only [List.all_eq_true] at hall ⊢
              intro c hc
              simp [hall c hc]
            · simp only [List.all_cons, Bool.and_eq_true]
              exact ⟨by simp, hJall⟩

theorem splitWordsAux_good (cs : List Char) (acc : List Char)
    (hacc : acc.all (fun c => !c.isWhitespace) = true) :
    ∀ w ∈ splitWordsAux cs acc,
      w ≠ [] ∧ w.all (fun c => !c.isWhitespace) = true := by
  induction cs generalizing acc with
  | nil =>
      intro w hw
      simp only [splitWordsAux] at hw
      split at hw
      · simp at hw
      · rename_i hne
        simp only [List.mem_singleton] at hw
        subst hw
        constructor
        · simpa using hne
        · simpa using hacc
  | cons c cs ih =>
      intro w hw
      simp only [splitWordsAux] at hw
      split at hw
      · split at hw
        · exact ih [] rfl w hw
        · rename_i hne
          rcases List.mem_cons.1 hw with rfl | hmem
          · constructor
            · simpa using hne
            · simpa using hacc
          · exact ih [] rfl w hmem
      · rename_i hcw
        refine ih (c :: acc) ?_ w hw
        simp only [List.all_cons, Bool.and_eq_true]
        exact ⟨by simpa using hcw, hacc⟩

theorem splitWords_good (cs : List Char) :
    ∀ w ∈ splitWords cs,
      w ≠ [] ∧ w.all (fun c => !c.isWhitespace) = true :=
  splitWordsAux_good cs [] rfl

theorem splitWordsAux_word (w : List Char) (rest acc : List Char)
    (hall : w.all (fun c => !c.isWhitespace) = true) :
    splitWordsAux (w ++ rest) acc = splitWordsAux rest (w.reverse ++ acc) := by
  induction w generalizing acc with
  | nil => simp
  | cons c w ih =>
      simp only [List.all_cons, Bool.and_eq_true] at hall
      have hc : c.isWhitespace = false := by simpa using hall.1
      simp only [List.cons_append, splitWordsAux]
      rw [if_neg (by simp [hc])]
      show splitWordsAux (w ++ rest) (c :: acc) =
        splitWordsAux rest ((c :: w).reverse ++ acc)
      rw [ih (c :: acc) hall.2]
      simp

theorem splitWords_joinWords (ws : List (List Char))
    (h : ∀ w ∈ ws, w ≠ [] ∧ w.all (fun c => !c.isWhitespace) = true) :
    splitWords (joinWords ws) = ws := by
  induction ws with
  | nil => rfl
  | cons w tail ih =>
      obtain ⟨hw, hall⟩ := h w (by simp)
      cases tail with
      | nil =>
          show splitWordsAux (joinWords [w]) [] = [w]
          have : joinWords [w] = w ++ [] := by simp [joinWords]
          rw [this, splitWordsAux_word w [] [] hall]
          simp only [splitWordsAux, List.append_nil]
          have hrev : w.reverse ≠ [] := by simp [hw]
          rw [if_neg hrev]
          simp
      | cons v ws2 =>
          have htail : ∀ u ∈ v :: ws2, u ≠ [] ∧
              u.all (fun c => !c.isWhitespace) = true := by
            intro u hu
            exact h u (by simp [hu])
          show splitWordsAux (joinWords (w :: v :: ws2)) [] = w :: v :: ws2
          have hjw : joinWords (w :: v :: ws2) =
              w ++ ' ' :: joinWords (v :: ws2) := rfl
          rw [hjw, splitWordsAux_word w _ [] hall]
          simp only [splitWordsAux, Char.isWhitespace]
          have hrev : w.reverse ++ [] ≠ [] := by simp [hw]
          rw [if_pos (by decide), if_neg hrev]
          congr 1
          · simp
          · exact ih htail

theorem keyStr_special_bracket (key : Key) (h : Key.isSpecial key = true) :
    startsWithBracket (keyStr key) = true := by
  cases key with
  | char c => simp [Key.isSpecial] at h
  | named n =>
      show startsWithBracket ("[" ++ n) = true
      unfold startsWithBracket
      rw [String.data_append]
      rfl
  | enter => rfl
  | tab => rfl
  | shift => rfl

theorem startsWithBracket_data_ne (t : String)
    (h : startsWithBracket t = true) : t.data ≠ [] := by
  unfold startsWithBracket at h
  intro he
  rw [he] at h
  simp at h

theorem string_append_ne_empty_right (b t : String) (h : t.data ≠ []) :
    b ++ t ≠ "" := by
  intro he
  apply h
  have hd : (b ++ t).data = ("" : String).data := by rw [he]
  rw [String.data_append] at hd
  exact (List.append_eq_nil.mp hd).2

/-- C1 (code_bug evaluation): the data block built by submit_query holds
references to the live buffers, so a capture cycle performed after the
block was assembled changes what the block's screen_texts field reads:
starting from the initial state, building the block and then running one
capture cycle with extracted text "hello" makes the block's observable
screen_texts differ from what they were at assembly time, contradicting
the claimed snapshot isolation. -/
theorem snapshot_aliasing_eval :
    ScreenBufRef.read (submit_query_block "help").screen_texts
        (sysStep initSys (SysEvent.capture 0 "hello")) ≠
      ScreenBufRef.read (submit_query_block "help").screen_texts initSys := by
  decide

/-- C2 (code_bug evaluation): in sensitive mode, releasing Tab while
Shift is physically held leaves sensitive_mode true, because the code
consults the _active_keys placeholder (always empty) instead of the held
modifiers; the claimed SENSITIVE to NORMAL escape transition never
fires. -/
theorem shift_tab_escape_eval :
    ((on_key_release 1 Key.tab true ⟨true, "", 0, true⟩).1.sensitive_mode
        = true) ∧
    (∀ sh : Bool, on_key_release 1 Key.tab sh ⟨true, "", 0, true⟩ =
      on_key_release 1 Key.tab true ⟨true, "", 0, true⟩) := by
  constructor
  · decide
  · intro sh
    rfl

/-- C3: once a sensitive marker is present in the buffer when a press is
processed, then after that press and any further events whatsoever
(flushes, releases, stops included), sensitive_mode is still true and
the token that any subsequently processed press appends is the mask
character, never the literal key token. -/
theorem redaction_latch (s : LoggerState) (hrun : s.running = true)
    (hm : markerPresent s.buffer = true) (now : ℤ) (key : Key)
    (evs : List LogEvent) (key2 : Key) :
    (runLogger (on_key_press now key s).1 evs).sensitive_mode = true ∧
    pressedToken (runLogger (on_key_press now key s).1 evs) key2 = "*" := by
  have hcs : (check_sensitive_context s).sensitive_mode = true :=
    check_sensitive_of_marker s hm
  have h1 : ((on_key_press now key s).1).sensitive_mode = true := by
    unfold on_key_press
    dsimp only
    rw [if_neg (by simp [hrun])]
    split
    · simpa [flush_buffer] using hcs
    · simpa using hcs
  have h2 := runLogger_sensitive_mono evs _ h1
  refine ⟨h2, ?_⟩
  unfold pressedToken
  rw [if_pos (check_sensitive_mono _ h2)]

/-- Witness for C3 at a concrete state: buffer "password", normal mode,
press of the character 1, then a Shift+Tab release; the latch holds. -/
theorem redaction_latch_witness :
    ((⟨true, "password", 0, false⟩ : LoggerState).running = true ∧
     markerPresent (⟨true, "password", 0, false⟩ : LoggerState).buffer
       = true) ∧
    ((runLogger
        (on_key_press 1 (Key.char '1') ⟨true, "password", 0, false⟩).1
        [LogEvent.release 1 Key.tab true]).sensitive_mode = true ∧
     pressedToken
        (runLogger
          (on_key_press 1 (Key.char '1') ⟨true, "password", 0, false⟩).1
          [LogEvent.release 1 Key.tab true]) (Key.char 'x') = "*") :=
  ⟨⟨rfl, by decide⟩,
   redaction_latch ⟨true, "password", 0, false⟩ rfl (by decide) 1
     (Key.char '1') [LogEvent.release 1 Key.tab true] (Key.char 'x')⟩

/-- C4 (counterexample): a flush from a sensitive state does not reset
sensitive_mode to false: flushing the buffer "abc" at instant 5 from a
sensitive state leaves sensitive_mode true. -/
theorem flush_keeps_sensitive_counterexample :
    ¬ ((flush_buffer 5 ⟨true, "abc", 0, true⟩).1.sensitive_mode
        = false) := by
  decide

/-- C4 (amended): every flush resets the pending text to empty and the
last flush time to the current instant, and leaves sensitive_mode
unchanged. -/
theorem flush_postcondition_amended (now : ℤ) (s : LoggerState) :
    (flush_buffer now s).1.buffer = "" ∧
    (flush_buffer now s).1.last_timestamp = now ∧
    (flush_buffer now s).1.sensitive_mode = s.sensitive_mode :=
  ⟨rfl, rfl, rfl⟩

/-- C5 (counterexample): in sensitive mode a press of Enter neither
emits an entry nor appends the bracketed token: from a sensitive state
with empty buffer, pressing Enter at instant 1 emits nothing and leaves
the buffer holding the mask character. -/
theorem special_key_sensitive_counterexample :
    (on_key_press 1 Key.enter ⟨true, "", 0, true⟩).2 = none ∧
    (on_key_press 1 Key.enter ⟨true, "", 0, true⟩).1.buffer = "*" := by
  decide

/-- C5 (amended): outside sensitive mode (and when the buffer triggers
no marker), pressing a special key appends its bracketed token and
flushes immediately, emitting the buffer extended by that token; and a
release of Enter always flushes whatever non-empty text accumulated. -/
theorem special_key_flush_amended (now : ℤ) (key : Key) (s : LoggerState)
    (hrun : s.running = true)
    (hsens : (check_sensitive_context s).sensitive_mode = false)
    (hsp : Key.isSpecial key = true) :
    (on_key_press now key s =
      ({ s with buffer := "", last_timestamp := now },
       some (s.buffer ++ keyStr key))) ∧
    (∀ (t : ℤ) (sh : Bool) (s2 : LoggerState), s2.buffer ≠ "" →
      (on_key_release t Key.enter sh s2).2 = some s2.buffer) := by
  have hm : markerPresent s.buffer = false := by
    by_contra hmm
    rw [Bool.not_eq_false] at hmm
    rw [check_sensitive_of_marker s hmm] at hsens
    simp at hsens
  have hcs : check_sensitive_context s = s := by
    unfold check_sensitive_context
    rw [if_neg (by simp [hm])]
  have htok : pressedToken s key = keyStr key := by
    unfold pressedToken
    rw [if_neg (by simp [hsens])]
  constructor
  · unfold on_key_press
    dsimp only
    rw [if_neg (by simp [hrun])]
    rw [htok, hcs]
    rw [if_pos (Or.inr (Or.inl (keyStr_special_bracket key hsp)))]
    unfold flush_buffer
    dsimp only
    rw [if_neg (string_append_ne_empty_right s.buffer (keyStr key)
      (startsWithBracket_data_ne _ (keyStr_special_bracket key hsp)))]
  · intro t sh s2 h2
    unfold on_key_release
    dsimp only
    rw [if_pos (Or.inl rfl)]
    unfold flush_buffer
    dsimp only
    rw [if_neg h2]

/-- Witness for C5 (amended) at a concrete state: normal mode, buffer
"hi", Enter pressed at instant 3. -/
theorem special_key_flush_amended_witness :
    ((⟨true, "hi", 0, false⟩ : LoggerState).running = true ∧
     (check_sensitive_context ⟨true, "hi", 0, false⟩).sensitive_mode
       = false ∧
     Key.isSpecial Key.enter = true) ∧
    on_key_press 3 Key.enter ⟨true, "hi", 0, false⟩ =
      (⟨true, "", 3, false⟩, some ("hi" ++ keyStr Key.enter)) :=
  ⟨⟨rfl, by decide, rfl⟩,
   (special_key_flush_amended 3 Key.enter ⟨true, "hi", 0, false⟩ rfl
     (by decide) rfl).1⟩

/-- C6: pressing p,a,s,s,w,o,r,d,1,2,3 (each within one second of the
last flush, no releases, no special keys) accumulates exactly the
buffer password*** with sensitive mode latched and nothing yet emitted;
the next flush (here the one forced by stop) emits a single entry whose
content is exactly password***. -/
theorem password_scenario :
    runLoggerOut initLogger c6Events =
      (⟨true, "password***", 0, true⟩, []) ∧
    runLoggerOut initLogger (c6Events ++ [LogEvent.stop 2]) =
      (⟨false, "", 2, true⟩, ["password***"]) := by
  decide

/-- C7: for every event sequence of the running system, both buffers
respect their capacities at all times, and each buffer holds exactly
the most recently appended entries (the last 30, respectively 100, of
its append history, in insertion order: the oldest were evicted
first). -/
theorem bounded_buffers (evs : List SysEvent) :
    ((runSys initSys evs).screen_texts.length ≤ 30 ∧
     (runSys initSys evs).keystrokes.length ≤ 100) ∧
    (runSys initSys evs).screen_texts = lastN 30 (screenHist initSys evs) ∧
    (runSys initSys evs).keystrokes = lastN 100 (keyHist initSys evs) := by
  have hscr := runSys_screen evs initSys [] rfl
  have hkey := runSys_keys evs initSys [] rfl
  simp only [List.nil_append] at hscr hkey
  exact ⟨⟨hscr ▸ lastN_length_le 30 _, hkey ▸ lastN_length_le 100 _⟩,
    hscr, hkey⟩

/-- C8: the extractor returns the empty text for an absent image
(whatever the OCR collaborator would do) and on OCR failure; on OCR
success it returns the OCR text with whitespace runs collapsed and ends
trimmed: the result is the single-space join of the whitespace-separated
words of the OCR text, it contains no leading, trailing, adjacent or
non-space whitespace, and its words are exactly those of the OCR
text. -/
theorem extract_text_contract {α : Type} (ocr : α → Except Unit (List Char)) :
    (extract_text none ocr = []) ∧
    (∀ (img : α) (e : Unit), ocr img = Except.error e →
      extract_text (some img) ocr = []) ∧
    (∀ (img : α) (t : List Char), ocr img = Except.ok t →
      extract_text (some img) ocr = joinWords (splitWords t) ∧
      isNormalized (extract_text (some img) ocr) = true ∧
      splitWords (extract_text (some img) ocr) = splitWords t) := by
  refine ⟨rfl, ?_, ?_⟩
  · intro img e he
    have hred : extract_text (some img) ocr =
        (match ocr img with
         | Except.error _ => []
         | Except.ok t => joinWords (splitWords t)) := rfl
    rw [hred, he]
  · intro img t ht
    have hx : extract_text (some img) ocr = joinWords (splitWords t) := by
      have hred : extract_text (some img) ocr =
          (match ocr img with
           | Except.error _ => []
           | Except.ok t => joinWords (splitWords t)) := rfl
      rw [hred, ht]
    refine ⟨hx, ?_, ?_⟩
    · rw [hx]
      exact joinWords_normalized _ (splitWords_good t)
    · rw [hx]
      exact splitWords_joinWords _ (splitWords_good t)

/-- Witness for C8 at a concrete OCR collaborator over Bool images:
the successful branch applies with the raw text consisting of a space,
the letter a, and a newline. -/
theorem extract_text_contract_witness :
    ((fun b : Bool => if b then Except.ok [' ', 'a', '\n']
        else Except.error ()) true = Except.ok [' ', 'a', '\n']) ∧
    extract_text (some true)
        (fun b : Bool => if b then Except.ok [' ', 'a', '\n']
          else Except.error ()) =
      joinWords (splitWords [' ', 'a', '\n']) :=
  ⟨rfl,
   ((extract_text_contract
       (fun b : Bool => if b then Except.ok [' ', 'a', '\n']
         else Except.error ())).2.2 true [' ', 'a', '\n'] rfl).1⟩

/-- C9: once sensitive_mode is true, no event of the running system
(key press, any key release including Tab with Shift physically held,
any flush these cause, capture cycles, or stop) ever resets it: it
stays true for the remainder of the run. -/
theorem sensitive_mode_monotone (s : SysState) (evs : List SysEvent)
    (h : s.logger.sensitive_mode = true) :
    (runSys s evs).logger.sensitive_mode = true := by
  induction evs generalizing s with
  | nil => exact h
  | cons e evs ih =>
      refine ih (sysStep s e) ?_
      cases e with
      | key e => simpa [sysStep] using logStep_sensitive_mono s.logger e h
      | capture now text => simpa [sysStep] using h

/-- Witness for C9 at a concrete sensitive state, driving a Shift+Tab
release, a press, a capture cycle and a stop. -/
theorem sensitive_mode_monotone_witness :
    ((⟨⟨true, "", 0, true⟩, [], []⟩ : SysState).logger.sensitive_mode
        = true) ∧
    (runSys ⟨⟨true, "", 0, true⟩, [], []⟩
        [SysEvent.key (LogEvent.release 1 Key.tab true),
         SysEvent.key (LogEvent.press 1 (Key.char 'a')),
         SysEvent.capture 1 "x",
         SysEvent.key (LogEvent.stop 2)]).logger.sensitive_mode = true :=
  ⟨rfl,
   sensitive_mode_monotone ⟨⟨true, "", 0, true⟩, [], []⟩
     [SysEvent.key (LogEvent.release 1 Key.tab true),
      SysEvent.key (LogEvent.press 1 (Key.char 'a')),
      SysEvent.capture 1 "x",
      SysEvent.key (LogEvent.stop 2)] rfl⟩

/-- C10: along every run of the system from its initial state, every
entry ever stored in either buffer has non-empty content: keystroke
flushes emit only non-empty accumulated text, and capture cycles store
only non-empty extracted text. -/
theorem entries_nonempty (evs : List SysEvent) :
    (∀ x ∈ (runSys initSys evs).screen_texts, x.text ≠ "") ∧
    (∀ x ∈ (runSys initSys evs).keystrokes, x.content ≠ "") :=
  runSys_nonempty evs initSys (by simp [initSys]) (by simp [initSys])

/-- Witness for C10 on the run consisting of one capture cycle with
text "hello": the stored entry is non-empty. -/
theorem entries_nonempty_witness :
    ((⟨0, "hello"⟩ : ScreenTextEntry) ∈
      (runSys initSys [SysEvent.capture 0 "hello"]).screen_texts) ∧
    (⟨0, "hello"⟩ : ScreenTextEntry).text ≠ "" :=
  ⟨by decide,
   (entries_nonempty [SysEvent.capture 0 "hello"]).1 ⟨0, "hello"⟩
     (by decide)⟩

end Integrity
